import Mathlib

/-!
Verification of the yolo-studio annotation engine against its specification.

The development shallowly embeds the TypeScript sources over exact rational
arithmetic: pure functions become Lean functions on `ℚ`, JS `Math.max/Math.min`
become `max/min`, optional fields become `Option`, and the fallible parts of the
detection-ingestion pipeline return `Option`.
-/

namespace YoloStudio

/-- The stored annotation type (types.ts `BBox`): normalized center-form box. -/
structure BBox where
  id : String
  labelId : String
  x : ℚ
  y : ℚ
  w : ℚ
  h : ℚ
  deriving Repr, DecidableEq

/-- types.ts `LabelClass`. -/
structure LabelClass where
  id : String
  name : String
  color : String
  deriving Repr, DecidableEq

/-- types.ts `DatasetImage` (the `file`/`url` handles are irrelevant to the
geometry and are kept as plain strings). -/
structure DatasetImage where
  id : String
  name : String
  width : ℚ
  height : ℚ
  annotations : List BBox
  deriving Repr, DecidableEq

/-- A pixel-space corner-form rectangle, the return shape of `yoloToSvg`. -/
structure SvgRect where
  x : ℚ
  y : ℚ
  w : ℚ
  h : ℚ
  deriving Repr, DecidableEq

/-- The geometry-only box returned by `svgToYolo` (TS `Omit<BBox,'id'|'labelId'>`). -/
structure NormBox where
  x : ℚ
  y : ℚ
  w : ℚ
  h : ℚ
  deriving Repr, DecidableEq

/-- yoloService.ts `yoloToSvg`: normalized center coordinates to pixel
top-left rectangle. -/
def yoloToSvg (bbox : BBox) (imgWidth imgHeight : ℚ) : SvgRect :=
  let w := bbox.w * imgWidth
  let h := bbox.h * imgHeight
  let x := bbox.x * imgWidth - w / 2
  let y := bbox.y * imgHeight - h / 2
  ⟨x, y, w, h⟩

/-- yoloService.ts `svgToYolo`: pixel top-left rectangle to normalized
center coordinates. -/
def svgToYolo (x y w h imgWidth imgHeight : ℚ) : NormBox :=
  let cx := (x + w / 2) / imgWidth
  let cy := (y + h / 2) / imgHeight
  let nw := w / imgWidth
  let nh := h / imgHeight
  ⟨cx, cy, nw, nh⟩

/-- Claim C1: for every center-form box and image size `W>0`, `H>0`, converting
the box to a pixel corner-form rectangle (`yoloToSvg`) and converting the
result back (`svgToYolo`) reproduces the original `x`, `y`, `w`, `h` exactly in
the exact-arithmetic model. -/
theorem yolo_svg_roundtrip (b : BBox) (W H : ℚ) (hw : 0 < b.w) (hh : 0 < b.h)
    (hW : 0 < W) (hH : 0 < H) :
    svgToYolo (yoloToSvg b W H).x (yoloToSvg b W H).y
      (yoloToSvg b W H).w (yoloToSvg b W H).h W H = ⟨b.x, b.y, b.w, b.h⟩ := by
  have hW0 : W ≠ 0 := ne_of_gt hW
  have hH0 : H ≠ 0 := ne_of_gt hH
  simp only [yoloToSvg, svgToYolo, NormBox.mk.injEq]
  refine ⟨?_, ?_, ?_, ?_⟩ <;> field_simp

/-- Witness for C1 at a concrete box and image size. -/
theorem yolo_svg_roundtrip_witness :
    svgToYolo (yoloToSvg ⟨"a", "l", 1/2, 1/2, 1/4, 1/4⟩ 640 480).x
      (yoloToSvg ⟨"a", "l", 1/2, 1/2, 1/4, 1/4⟩ 640 480).y
      (yoloToSvg ⟨"a", "l", 1/2, 1/2, 1/4, 1/4⟩ 640 480).w
      (yoloToSvg ⟨"a", "l", 1/2, 1/2, 1/4, 1/4⟩ 640 480).h 640 480 =
      ⟨1/2, 1/2, 1/4, 1/4⟩ :=
  yolo_svg_roundtrip ⟨"a", "l", 1/2, 1/2, 1/4, 1/4⟩ 640 480
    (by norm_num) (by norm_num) (by norm_num) (by norm_num)

/-! ### C2: auto-label configuration defaults -/

/-- yoloService.ts `AutoLabelConfig`: every field optional; the caller may
omit any of them. -/
structure AutoLabelConfig where
  model : Option String := none
  minConfidence : Option ℚ := none
  maxRetries : Option ℕ := none
  temperature : Option ℚ := none
  includeDescription : Option Bool := none
  deriving Repr, DecidableEq

/-- The values `autoLabelImage` actually runs with after its destructuring
defaults (yoloService.ts lines 240-246). -/
structure ResolvedConfig where
  model : String
  minConfidence : ℚ
  maxRetries : ℕ
  temperature : ℚ
  includeDescription : Bool
  deriving Repr, DecidableEq

/-- The destructuring-with-defaults at the top of `autoLabelImage`:
`minConfidence = 0.93`, `maxRetries = 3`, `temperature = 0`, etc. -/
def resolveConfig (config : AutoLabelConfig) : ResolvedConfig where
  model := config.model.getD "gemini-3-flash-preview"
  minConfidence := config.minConfidence.getD (93 / 100)
  maxRetries := config.maxRetries.getD 3
  temperature := config.temperature.getD 0
  includeDescription := config.includeDescription.getD false

/-- Claim C2 (code behavior at the failing input): with no caller override the
pipeline resolves `minConfidence` to `0.93`, not the documented default `0.3`. -/
theorem minConfidence_default_is_093 :
    (resolveConfig {}).minConfidence = 93 / 100 ∧ (93 / 100 : ℚ) ≠ 3 / 10 := by
  constructor
  · rfl
  · norm_num

/-! ### C3: resize anchoring -/

/-- Canvas component `ResizeHandleType`. -/
inductive ResizeHandleType where
  | tl
  | tr
  | bl
  | br
  deriving Repr, DecidableEq

/-- The pixel-rectangle recomputation performed by `handleMouseMove` while a
resize handle is active (`mode === SELECT && resizeHandle`): the opposite
corner is used as the anchor and a 5-pixel minimum extent is enforced. -/
def resizeRect (handle : ResizeHandleType) (rect : SvgRect) (x y : ℚ) : SvgRect :=
  match handle with
  | .tl =>
    let brX := rect.x + rect.w
    let brY := rect.y + rect.h
    let newX := min x (brX - 5)
    let newY := min y (brY - 5)
    ⟨newX, newY, brX - newX, brY - newY⟩
  | .tr =>
    let blX := rect.x
    let blY := rect.y + rect.h
    let newY := min y (blY - 5)
    ⟨rect.x, newY, max (x - blX) 5, blY - newY⟩
  | .bl =>
    let trX := rect.x + rect.w
    let trY := rect.y
    let newX := min x (trX - 5)
    ⟨newX, rect.y, trX - newX, max (y - trY) 5⟩
  | .br =>
    ⟨rect.x, rect.y, max (x - rect.x) 5, max (y - rect.y) 5⟩

/-- The pixel position of the corner opposite a given resize handle. -/
def oppositeCorner (handle : ResizeHandleType) (rect : SvgRect) : ℚ × ℚ :=
  match handle with
  | .tl => (rect.x + rect.w, rect.y + rect.h)
  | .tr => (rect.x, rect.y + rect.h)
  | .bl => (rect.x + rect.w, rect.y)
  | .br => (rect.x, rect.y)

/-- Claim C3: during a resize from any of the four handles, every pointer-move
recomputation leaves the pixel coordinates of the corner opposite the active
handle unchanged. -/
theorem resize_preserves_opposite_corner (handle : ResizeHandleType)
    (rect : SvgRect) (x y : ℚ) :
    oppositeCorner handle (resizeRect handle rect x y) = oppositeCorner handle rect := by
  cases handle <;> simp [resizeRect, oppositeCorner]

/-! ### C4: retry wrapper -/

/-- Trace-level embedding of yoloService.ts `retryAsync`. The wrapped call is
modelled as `f : ℕ → Except E T` giving the outcome of each invocation in
order. `r` is the number of loop iterations still allowed after the current
one (so the loop body runs `maxRetries + 1` times when every call fails),
`attempt` the current value of the loop counter, `delay` the current
`retryDelay`. The result records the final outcome (`Except.error` models the
rethrow of `lastError`), the total number of calls made, and the list of
backoff sleeps performed between consecutive calls. -/
def retryGo {E T : Type} (f : ℕ → Except E T) (attempt : ℕ) (r : ℕ) (delay : ℚ) :
    Except E T × ℕ × List ℚ :=
  match f attempt with
  | .ok t => (.ok t, attempt + 1, [])
  | .error e =>
    match r with
    | 0 => (.error e, attempt + 1, [])
    | r' + 1 =>
      let rest := retryGo f (attempt + 1) r' (delay * 2)
      (rest.1, rest.2.1, delay :: rest.2.2)

/-- yoloService.ts `retryAsync(fn, maxRetries, retryDelay = 1000)`:
a `for (attempt = 0; attempt <= maxRetries; attempt++)` loop that returns the
first success, sleeps and doubles the delay after each failure except the
last, and rethrows the last error once the loop ends. -/
def retryAsync {E T : Type} (f : ℕ → Except E T) (maxRetries : ℕ)
    (delay : ℚ := 1000) : Except E T × ℕ × List ℚ :=
  retryGo f 0 maxRetries delay

theorem retryGo_attempts_le {E T : Type} (f : ℕ → Except E T) (r : ℕ) :
    ∀ attempt delay, (retryGo f attempt r delay).2.1 ≤ attempt + r + 1 := by
  induction r with
  | zero =>
    intro attempt delay
    unfold retryGo
    cases f attempt <;> simp
  | succ r' ih =>
    intro attempt delay
    unfold retryGo
    cases f attempt with
    | ok t => simp
    | error e =>
      simp only []
      have h := ih (attempt + 1) (delay * 2)
      omega

theorem retryGo_all_fail {E T : Type} (f : ℕ → Except E T)
    (hfail : ∀ k, ∃ e, f k = Except.error e) (r : ℕ) :
    ∀ attempt delay, retryGo f attempt r delay =
      (f (attempt + r), attempt + r + 1,
        (List.range r).map (fun k => delay * 2 ^ k)) := by
  induction r with
  | zero =>
    intro attempt delay
    obtain ⟨e, he⟩ := hfail attempt
    unfold retryGo
    simp [he]
  | succ r' ih =>
    intro attempt delay
    obtain ⟨e, he⟩ := hfail attempt
    unfold retryGo
    rw [he]
    simp only [ih (attempt + 1) (delay * 2)]
    refine Prod.ext ?_ (Prod.ext ?_ ?_)
    · simp only []
      congr 1
      omega
    · simp only []
      omega
    · simp only [List.range_succ_eq_map, List.map_cons, List.map_map]
      congr 1
      · simp
      · refine List.map_congr_left fun a _ => ?_
        simp only [Function.comp_apply, pow_succ]
        ring

/-- Claim C4 (amended): when every call fails, `retryAsync` makes exactly
`maxRetries + 1` calls in total, sleeps `delay * 2^k` before the `(k+1)`-th
call (backoff starts at the base delay and doubles after each failure), and
surfaces the error of the last call; and in general it never makes more than
`maxRetries + 1` calls. -/
theorem retryAsync_behavior {E T : Type} (f : ℕ → Except E T) (maxRetries : ℕ)
    (delay : ℚ) (hfail : ∀ k, ∃ e, f k = Except.error e) :
    retryAsync f maxRetries delay =
      (f maxRetries, maxRetries + 1,
        (List.range maxRetries).map (fun k => delay * 2 ^ k)) ∧
    ∀ g : ℕ → Except E T, (retryAsync g maxRetries delay).2.1 ≤ maxRetries + 1 := by
  constructor
  · have h := retryGo_all_fail f hfail maxRetries 0 delay
    simpa [retryAsync] using h
  · intro g
    have h := retryGo_attempts_le g maxRetries 0 delay
    simpa [retryAsync] using h

/-- Witness for C4 at a concrete always-failing call with the default
`maxRetries = 3` and base delay `1000`. -/
theorem retryAsync_behavior_witness :
    retryAsync (fun _ => (Except.error "boom" : Except String Unit)) 3 1000 =
      (Except.error "boom", 4, [1000, 2000, 4000]) := by
  have h := (retryAsync_behavior (fun _ => (Except.error "boom" : Except String Unit))
    3 1000 (fun k => ⟨"boom", rfl⟩)).1
  norm_num [List.range_succ] at h
  exact h

/-- Counterexample to C4 as stated: with the default `maxRetries = 3` and an
always-failing call, the wrapper makes 4 attempts, which is not at most 3. -/
theorem retryAsync_four_attempts :
    (retryAsync (fun _ => (Except.error () : Except Unit Unit)) 3 1000).2.1 = 4 ∧
    ¬ ((retryAsync (fun _ => (Except.error () : Except Unit Unit)) 3 1000).2.1 ≤ 3) := by
  constructor
  · rfl
  · decide

/-! ### C5, C7, C8: detection-ingestion pipeline steps -/

/-- A raw `box_2d` value `[ymin, xmin, ymax, xmax]` after `map(Number)`. -/
structure RawBox where
  ymin : ℚ
  xmin : ℚ
  ymax : ℚ
  xmax : ℚ
  deriving Repr, DecidableEq

/-- The coordinate-space step of `autoLabelImage` (yoloService.ts lines
387-402): if any of the four values exceeds `1.0` the box is assumed to be in
pixel coordinates and y-values are divided by the image height, x-values by
the image width; with non-positive dimensions the detection is skipped
(`none`); otherwise the box is used unchanged. -/
def normalizeStep (b : RawBox) (width height : ℚ) : Option RawBox :=
  if b.ymin > 1 ∨ b.xmin > 1 ∨ b.ymax > 1 ∨ b.xmax > 1 then
    if width > 0 ∧ height > 0 then
      some ⟨b.ymin / height, b.xmin / width, b.ymax / height, b.xmax / width⟩
    else none
  else some b

/-- Claim C5: when any of the four `box_2d` values exceeds `1.0` the detection
is treated as pixel coordinates (y divided by height, x by width), and is
skipped when the image width or height is zero; when no value exceeds `1.0`
the box is used unchanged. -/
theorem normalizeStep_spec (b : RawBox) (W H : ℚ) :
    ((b.ymin > 1 ∨ b.xmin > 1 ∨ b.ymax > 1 ∨ b.xmax > 1) →
      (W > 0 → H > 0 →
        normalizeStep b W H = some ⟨b.ymin / H, b.xmin / W, b.ymax / H, b.xmax / W⟩) ∧
      (W = 0 ∨ H = 0 → normalizeStep b W H = none)) ∧
    (¬ (b.ymin > 1 ∨ b.xmin > 1 ∨ b.ymax > 1 ∨ b.xmax > 1) →
      normalizeStep b W H = some b) := by
  constructor
  · intro hbig
    constructor
    · intro hW hH
      simp [normalizeStep, hbig, hW, hH]
    · intro hzero
      have hdim : ¬ (W > 0 ∧ H > 0) := by
        rintro ⟨hW, hH⟩
        rcases hzero with rfl | rfl
        · exact lt_irrefl 0 hW
        · exact lt_irrefl 0 hH
      simp [normalizeStep, hbig, hdim]
  · intro hsmall
    simp [normalizeStep, hsmall]

/-- Witness for C5: the spec's pixel example `[10,20,400,300]` on a `640x480`
image, the same example with a zero width, and the already-normalized example
`[0.1,0.2,0.5,0.6]`. -/
theorem normalizeStep_spec_witness :
    normalizeStep ⟨10, 20, 400, 300⟩ 640 480 =
      some ⟨10 / 480, 20 / 640, 400 / 480, 300 / 640⟩ ∧
    normalizeStep ⟨10, 20, 400, 300⟩ 0 480 = none ∧
    normalizeStep ⟨1/10, 2/10, 5/10, 6/10⟩ 640 480 =
      some ⟨1/10, 2/10, 5/10, 6/10⟩ := by
  refine ⟨?_, ?_, ?_⟩
  · exact ((normalizeStep_spec ⟨10, 20, 400, 300⟩ 640 480).1 (by norm_num)).1
      (by norm_num) (by norm_num)
  · exact ((normalizeStep_spec ⟨10, 20, 400, 300⟩ 0 480).1 (by norm_num)).2 (Or.inl rfl)
  · exact (normalizeStep_spec ⟨1/10, 2/10, 5/10, 6/10⟩ 640 480).2 (by norm_num)

/-- The minimum-size adjustment `clampBBox` applies to one axis
(`MIN_SIZE = 0.01`): re-center and expand symmetrically when the extent is
below the minimum, re-clamping into `[0,1]`. -/
def minSizePair (lo hi : ℚ) : ℚ × ℚ :=
  if hi - lo < 1 / 100 then
    let center := (lo + hi) / 2
    (max 0 (center - 1 / 200), min 1 (center + 1 / 200))
  else (lo, hi)

/-- yoloService.ts `clampBBox`: clamp all four values into `[0,1]`, then apply
the minimum-size adjustment to each axis. -/
def clampBBox (box : RawBox) : RawBox :=
  let yPair := minSizePair (max 0 (min 1 box.ymin)) (max 0 (min 1 box.ymax))
  let xPair := minSizePair (max 0 (min 1 box.xmin)) (max 0 (min 1 box.xmax))
  ⟨yPair.1, xPair.1, yPair.2, xPair.2⟩

/-- The final guard of `autoLabelImage` step 7: `if (w <= 0 || h <= 0)` skip. -/
def finalGuardFires (w h : ℚ) : Bool :=
  decide (w ≤ 0) || decide (h ≤ 0)

theorem clamp01_nonneg (v : ℚ) : 0 ≤ max 0 (min 1 v) := le_max_left 0 _

theorem clamp01_le_one (v : ℚ) : max 0 (min 1 v) ≤ 1 :=
  max_le (by norm_num) (min_le_left 1 v)

theorem recenter_gap_pos (c : ℚ) (h0 : 0 ≤ c) (h1 : c ≤ 1) :
    max 0 (c - 1 / 200) < min 1 (c + 1 / 200) := by
  apply max_lt
  · apply lt_min
    · norm_num
    · linarith
  · apply lt_min
    · linarith
    · linarith

theorem minSizePair_gap_pos (lo hi : ℚ) (hlo0 : 0 ≤ lo) (hlo1 : lo ≤ 1)
    (hhi0 : 0 ≤ hi) (hhi1 : hi ≤ 1) :
    0 < (minSizePair lo hi).2 - (minSizePair lo hi).1 := by
  unfold minSizePair
  split_ifs with hgap
  · have hc0 : 0 ≤ (lo + hi) / 2 := by linarith
    have hc1 : (lo + hi) / 2 ≤ 1 := by linarith
    have := recenter_gap_pos ((lo + hi) / 2) hc0 hc1
    simpa [sub_pos] using this
  · simp only []
    linarith

/-- Claim C7: for every 4-element rational input, `clampBBox` returns a box
with strictly positive height and width, so the pipeline's final
`w<=0 || h<=0` guard never fires on its output. -/
theorem clampBBox_positive_extent (box : RawBox) :
    0 < (clampBBox box).ymax - (clampBBox box).ymin ∧
    0 < (clampBBox box).xmax - (clampBBox box).xmin ∧
    finalGuardFires ((clampBBox box).xmax - (clampBBox box).xmin)
      ((clampBBox box).ymax - (clampBBox box).ymin) = false := by
  have hy := minSizePair_gap_pos (max 0 (min 1 box.ymin)) (max 0 (min 1 box.ymax))
    (clamp01_nonneg _) (clamp01_le_one _) (clamp01_nonneg _) (clamp01_le_one _)
  have hx := minSizePair_gap_pos (max 0 (min 1 box.xmin)) (max 0 (min 1 box.xmax))
    (clamp01_nonneg _) (clamp01_le_one _) (clamp01_nonneg _) (clamp01_le_one _)
  simp only [clampBBox] at hy hx ⊢
  refine ⟨hy, hx, ?_⟩
  have hw : ¬ ((minSizePair (max 0 (min 1 box.xmin)) (max 0 (min 1 box.xmax))).2 -
      (minSizePair (max 0 (min 1 box.xmin)) (max 0 (min 1 box.xmax))).1 ≤ 0) :=
    not_le.mpr hx
  have hh : ¬ ((minSizePair (max 0 (min 1 box.ymin)) (max 0 (min 1 box.ymax))).2 -
      (minSizePair (max 0 (min 1 box.ymin)) (max 0 (min 1 box.ymax))).1 ≤ 0) :=
    not_le.mpr hy
  simp [finalGuardFires, hw, hh]

/-- The confidence resolution in `autoLabelImage` step 3:
`Number(res.confidence ?? 1.0)`. -/
def resolveConfidence (c : Option ℚ) : ℚ := c.getD 1

/-- The confidence filter of `autoLabelImage`: a detection is skipped iff its
resolved confidence is strictly below `minConfidence`. -/
def confidenceSkipped (c : Option ℚ) (minConfidence : ℚ) : Bool :=
  decide (resolveConfidence c < minConfidence)

/-- Claim C8: a missing confidence is treated as `1.0`; a detection whose
confidence equals `minConfidence` is accepted, and one whose confidence is
strictly less is skipped. -/
theorem confidence_filter_spec (c : Option ℚ) (m : ℚ) :
    resolveConfidence none = 1 ∧
    (resolveConfidence c = m → confidenceSkipped c m = false) ∧
    (resolveConfidence c < m → confidenceSkipped c m = true) := by
  refine ⟨rfl, ?_, ?_⟩
  · intro h
    simp [confidenceSkipped, h]
  · intro h
    simp [confidenceSkipped, h]

/-- Witness for C8: no confidence resolves to `1`; confidence `0.3` at
threshold `0.3` is accepted; confidence `0.29` at threshold `0.3` is skipped. -/
theorem confidence_filter_spec_witness :
    resolveConfidence none = 1 ∧
    confidenceSkipped (some (3/10)) (3/10) = false ∧
    confidenceSkipped (some (29/100)) (3/10) = true := by
  obtain ⟨h1, h2, _⟩ := confidence_filter_spec (some (3/10)) (3/10)
  obtain ⟨_, _, h3⟩ := confidence_filter_spec (some (29/100)) (3/10)
  exact ⟨h1, h2 rfl, h3 (by norm_num [resolveConfidence])⟩

/-! ### C6: label merge -/

/-- Modelled from the spec: the single-annotation rewrite of the merge
operation. The `onMerge` dataset mutation invoked by
`MergeModal.handleConfirm` is not among the provided sources (only the modal
caller is); spec section 4.4 says every annotation whose `labelId == sourceId`
is rewritten to `targetId`. -/
def remapAnn (sourceId targetId : String) (a : BBox) : BBox :=
  if a.labelId = sourceId then ⟨a.id, targetId, a.x, a.y, a.w, a.h⟩ else a

/-- Modelled from the spec: the Label Merge mutation of spec section 4.4.
The `onMerge` implementation is not among the provided sources; per the spec,
every annotation across every image whose `labelId == sourceId` is rewritten
to `targetId`, and the label with `sourceId` is removed from the label list. -/
def mergeLabels (images : List DatasetImage) (labels : List LabelClass)
    (sourceId targetId : String) : List DatasetImage × List LabelClass :=
  (images.map fun img =>
    ⟨img.id, img.name, img.width, img.height,
      img.annotations.map (remapAnn sourceId targetId)⟩,
   labels.filter fun l => l.id != sourceId)

/-- Total number of annotations across a dataset. -/
def totalAnnCount (images : List DatasetImage) : ℕ :=
  (images.map fun img => img.annotations.length).sum

/-- Number of annotations across a dataset carrying a given label id. -/
def countLabel (images : List DatasetImage) (labelId : String) : ℕ :=
  (images.map fun img =>
    (img.annotations.filter fun a => a.labelId == labelId).length).sum

theorem remap_filter_count (s t : String) (hst : s ≠ t) (anns : List BBox) :
    ((anns.map (remapAnn s t)).filter (fun a => a.labelId == t)).length =
      (anns.filter (fun a => a.labelId == s)).length +
      (anns.filter (fun a => a.labelId == t)).length := by
  induction anns with
  | nil => rfl
  | cons a rest ih =>
    by_cases hs : a.labelId = s
    · have hnt : (a.labelId == t) = false := by
        simp [hs]
        exact hst
      simp only [List.map_cons, remapAnn, hs, if_pos rfl, List.filter_cons]
      simp [hs, hnt, ih, hst]
      omega
    · have hns : (a.labelId == s) = false := by simp [hs]
      simp only [List.map_cons, remapAnn, if_neg hs, List.filter_cons, hns]
      by_cases ht : a.labelId = t <;> simp [ht, ih] <;> omega

/-- Claim C6: merging an existing source label into an existing distinct
target label keeps the total annotation count unchanged, makes the target's
annotation count the sum of the prior source and target counts, and removes
the source label from the label list (the target label remains). -/
theorem merge_invariants (images : List DatasetImage) (labels : List LabelClass)
    (sourceId targetId : String) (hne : sourceId ≠ targetId)
    (hsrc : ∃ l ∈ labels, l.id = sourceId) (htgt : ∃ l ∈ labels, l.id = targetId) :
    totalAnnCount (mergeLabels images labels sourceId targetId).1 = totalAnnCount images ∧
    countLabel (mergeLabels images labels sourceId targetId).1 targetId =
      countLabel images sourceId + countLabel images targetId ∧
    (∀ l ∈ (mergeLabels images labels sourceId targetId).2, l.id ≠ sourceId) ∧
    (∃ l ∈ (mergeLabels images labels sourceId targetId).2, l.id = targetId) := by
  refine ⟨?_, ?_, ?_, ?_⟩
  · simp [totalAnnCount, mergeLabels, List.map_map, Function.comp_def]
  · induction images with
    | nil => rfl
    | cons img rest ih =>
      simp only [mergeLabels, countLabel, List.map_cons, List.map_map, List.sum_cons] at ih ⊢
      rw [remap_filter_count sourceId targetId hne img.annotations]
      omega
  · intro l hl
    have := List.of_mem_filter hl
    simpa using this
  · obtain ⟨l, hl, hid⟩ := htgt
    refine ⟨l, List.mem_filter.mpr ⟨hl, ?_⟩, hid⟩
    simp [hid]
    exact fun h => hne h.symm

/-- Witness for C6 on the spec's example: label A with 3 annotations, label B
with 2, merged A into B. -/
theorem merge_invariants_witness :
    totalAnnCount (mergeLabels
      [⟨"i1", "img1", 640, 480,
        [⟨"b1", "A", 1/2, 1/2, 1/4, 1/4⟩, ⟨"b2", "A", 1/4, 1/4, 1/8, 1/8⟩,
         ⟨"b3", "B", 1/2, 1/2, 1/2, 1/2⟩]⟩,
       ⟨"i2", "img2", 640, 480,
        [⟨"b4", "A", 1/2, 1/2, 1/4, 1/4⟩, ⟨"b5", "B", 1/4, 1/4, 1/8, 1/8⟩]⟩]
      [⟨"A", "cat", "red"⟩, ⟨"B", "dog", "blue"⟩] "A" "B").1 = 5 ∧
    countLabel (mergeLabels
      [⟨"i1", "img1", 640, 480,
        [⟨"b1", "A", 1/2, 1/2, 1/4, 1/4⟩, ⟨"b2", "A", 1/4, 1/4, 1/8, 1/8⟩,
         ⟨"b3", "B", 1/2, 1/2, 1/2, 1/2⟩]⟩,
       ⟨"i2", "img2", 640, 480,
        [⟨"b4", "A", 1/2, 1/2, 1/4, 1/4⟩, ⟨"b5", "B", 1/4, 1/4, 1/8, 1/8⟩]⟩]
      [⟨"A", "cat", "red"⟩, ⟨"B", "dog", "blue"⟩] "A" "B").1 "B" = 3 + 2 := by
  have h := merge_invariants
    [⟨"i1", "img1", 640, 480,
      [⟨"b1", "A", 1/2, 1/2, 1/4, 1/4⟩, ⟨"b2", "A", 1/4, 1/4, 1/8, 1/8⟩,
       ⟨"b3", "B", 1/2, 1/2, 1/2, 1/2⟩]⟩,
     ⟨"i2", "img2", 640, 480,
      [⟨"b4", "A", 1/2, 1/2, 1/4, 1/4⟩, ⟨"b5", "B", 1/4, 1/4, 1/8, 1/8⟩]⟩]
    [⟨"A", "cat", "red"⟩, ⟨"B", "dog", "blue"⟩] "A" "B"
    (by decide) (by decide) (by decide)
  obtain ⟨h1, h2, _, _⟩ := h
  constructor
  · rw [h1]
    rfl
  · rw [h2]
    rfl

/-! ### C9, C10: YOLO annotation export -/

/-- Exactly six decimal digit characters: the zero-padded fractional block of
`toFixed(6)` for a scaled value `n < 10^6`. -/
def sixDigitString (n : ℕ) : String :=
  String.mk [Nat.digitChar (n / 100000 % 10), Nat.digitChar (n / 10000 % 10),
    Nat.digitChar (n / 1000 % 10), Nat.digitChar (n / 100 % 10),
    Nat.digitChar (n / 10 % 10), Nat.digitChar (n % 10)]

/-- The scaled magnitude `⌊|q| * 10^6 + 1/2⌋` computed over `ℕ`: ECMA-262
`Number.prototype.toFixed(6)` picks the integer whose quotient by `10^6` is
closest to the magnitude, the larger one on ties. -/
def fixedScaled (q : ℚ) : ℕ := (2000000 * q.num.natAbs + q.den) / (2 * q.den)

/-- `fixedScaled` is exactly the half-up rounding `⌊|q| * 10^6 + 1/2⌋`. -/
theorem fixedScaled_eq_floor (q : ℚ) :
    (fixedScaled q : ℤ) = ⌊|q| * 1000000 + 1 / 2⌋ := by
  have hd : (0 : ℚ) < (q.den : ℚ) := by exact_mod_cast q.pos
  have hq : (q : ℚ) = (q.num : ℚ) / (q.den : ℚ) := (Rat.num_div_den q).symm
  have habs : |q| = (q.num.natAbs : ℚ) / (q.den : ℚ) := by
    rw [Int.cast_natAbs, Int.cast_abs]
    nth_rewrite 1 [hq]
    rw [abs_div, abs_of_pos hd]
  have hx : |q| * 1000000 + 1 / 2 =
      ((2000000 * q.num.natAbs + q.den : ℕ) : ℚ) / ((2 * q.den : ℕ) : ℚ) := by
    rw [habs]
    push_cast
    field_simp
    ring
  rw [hx, Rat.floor_natCast_div_natCast, fixedScaled]
  exact_mod_cast rfl

/-- Model of JavaScript `x.toFixed(6)` on exact rationals: optional minus
sign, integer part, a dot, and exactly six fractional digits. -/
def toFixed6 (q : ℚ) : String :=
  (if q < 0 then "-" else "") ++ toString (fixedScaled q / 1000000) ++ "." ++
    sixDigitString (fixedScaled q % 1000000)

/-- The body of the `annotations.map` in yoloService.ts
`generateYoloAnnotation`: look up the label's index with `findIndex` and
format the line, or produce the empty string when the label is missing
(`classIndex === -1`). -/
def annLine (labels : List LabelClass) (ann : BBox) : String :=
  match labels.findIdx? (fun l => l.id == ann.labelId) with
  | none => ""
  | some classIndex =>
      toString classIndex ++ " " ++ toFixed6 ann.x ++ " " ++ toFixed6 ann.y ++ " " ++
        toFixed6 ann.w ++ " " ++ toFixed6 ann.h

/-- yoloService.ts `generateYoloAnnotation`: map each annotation to its line
and join the lines with newlines. -/
def generateYoloAnnotation (anns : List BBox) (labels : List LabelClass) : String :=
  String.intercalate "\n" (anns.map (annLine labels))

theorem digitChar_mod10_isDigit (x : ℕ) : (Nat.digitChar (x % 10)).isDigit = true := by
  have hm : x % 10 < 10 := Nat.mod_lt _ (by norm_num)
  interval_cases h : x % 10 <;> decide

/-- Claim C9: when every annotation's `labelId` occurs in the label list, the
export is the newline-join of one line per annotation, each line being the
zero-based position of the label in the label list followed by the four
coordinates; and every `toFixed6` output ends in a dot followed by exactly six
decimal digits. -/
theorem generate_yolo_format (anns : List BBox) (labels : List LabelClass)
    (h : ∀ ann ∈ anns, ∃ l ∈ labels, l.id = ann.labelId) :
    generateYoloAnnotation anns labels =
      String.intercalate "\n" (anns.map fun ann =>
        toString (labels.findIdx fun l => l.id == ann.labelId) ++ " " ++
          toFixed6 ann.x ++ " " ++ toFixed6 ann.y ++ " " ++
          toFixed6 ann.w ++ " " ++ toFixed6 ann.h) ∧
    ∀ q : ℚ, ∃ pre post : String,
      toFixed6 q = pre ++ "." ++ post ∧ post.length = 6 ∧
        (post.data.all fun c => c.isDigit) = true := by
  constructor
  · unfold generateYoloAnnotation
    congr 1
    refine List.map_congr_left fun ann hann => ?_
    obtain ⟨l, hl, hid⟩ := h ann hann
    have hfound : (labels.findIdx? fun la => la.id == ann.labelId) =
        some (labels.findIdx fun la => la.id == ann.labelId) :=
      List.findIdx?_eq_some_of_exists ⟨l, hl, by simp [hid]⟩
    simp [annLine, hfound]
  · intro q
    refine ⟨(if q < 0 then "-" else "") ++ toString (fixedScaled q / 1000000),
      sixDigitString (fixedScaled q % 1000000), ?_, rfl, ?_⟩
    · simp [toFixed6, String.append_assoc]
    · simp only [sixDigitString, String.data, List.all_cons, List.all_nil,
        digitChar_mod10_isDigit, Bool.and_self, Bool.and_true]

/-- The spec's export example: two annotations for label indices 0 and 1. -/
def exAnns : List BBox :=
  [⟨"a1", "id0", mkRat 1 2, mkRat 1 2, mkRat 1 4, mkRat 1 4⟩,
   ⟨"a2", "id1", mkRat 1 10, mkRat 1 5, mkRat 1 20, mkRat 1 20⟩]

/-- The label list for the export example. -/
def exLabels : List LabelClass :=
  [⟨"id0", "person", "red"⟩, ⟨"id1", "car", "blue"⟩]

/-- Witness for C9: the spec's export example, including the exact exported
text. -/
theorem generate_yolo_format_witness :
    generateYoloAnnotation exAnns exLabels =
      String.intercalate "\n" (exAnns.map fun ann =>
        toString (exLabels.findIdx fun l => l.id == ann.labelId) ++ " " ++
          toFixed6 ann.x ++ " " ++ toFixed6 ann.y ++ " " ++
          toFixed6 ann.w ++ " " ++ toFixed6 ann.h) ∧
    generateYoloAnnotation exAnns exLabels =
      "0 0.500000 0.500000 0.250000 0.250000\n1 0.100000 0.200000 0.050000 0.050000" := by
  constructor
  · exact (generate_yolo_format exAnns exLabels (by decide)).1
  · decide

theorem findIdxq_none_of_all_false (p : LabelClass → Bool) (labels : List LabelClass)
    (h : ∀ l ∈ labels, p l = false) : labels.findIdx? p = none :=
  List.findIdx?_eq_none_iff.mpr h

/-- Claim C10: an annotation whose `labelId` is not in the label list is
mapped to the empty string but still joined, so the mapped line list contains
an empty entry, and a sole unknown annotation exports as the empty string. -/
theorem missing_label_empty_line (anns : List BBox) (labels : List LabelClass)
    (ann : BBox) (hmem : ann ∈ anns)
    (hmiss : ∀ l ∈ labels, (l.id == ann.labelId) = false) :
    annLine labels ann = "" ∧
    "" ∈ anns.map (annLine labels) ∧
    generateYoloAnnotation anns labels = String.intercalate "\n" (anns.map (annLine labels)) ∧
    generateYoloAnnotation [ann] labels = "" := by
  have hnone : (labels.findIdx? fun l => l.id == ann.labelId) = none :=
    findIdxq_none_of_all_false _ labels hmiss
  have hline : annLine labels ann = "" := by simp [annLine, hnone]
  refine ⟨hline, List.mem_map.mpr ⟨ann, hmem, hline⟩, rfl, ?_⟩
  show String.intercalate "\n" [annLine labels ann] = ""
  rw [hline]
  rfl

/-- An annotation whose `labelId` does not occur in `exLabels`. -/
def ghostAnn : BBox := ⟨"a3", "ghost", mkRat 1 2, mkRat 1 2, mkRat 1 4, mkRat 1 4⟩

/-- A mixed list: one known annotation and one with an unknown label. -/
def mixedAnns : List BBox :=
  [⟨"a1", "id0", mkRat 1 2, mkRat 1 2, mkRat 1 4, mkRat 1 4⟩, ghostAnn]

/-- Witness for C10: one known and one unknown annotation; the unknown one
contributes an empty line, and alone it exports as the empty string. -/
theorem missing_label_empty_line_witness :
    annLine exLabels ghostAnn = "" ∧
    "" ∈ mixedAnns.map (annLine exLabels) ∧
    generateYoloAnnotation mixedAnns exLabels =
      String.intercalate "\n" (mixedAnns.map (annLine exLabels)) ∧
    generateYoloAnnotation [ghostAnn] exLabels = "" := by
  obtain ⟨h1, h2, h3, _⟩ := missing_label_empty_line mixedAnns exLabels ghostAnn
    (by decide) (by decide)
  have h4 := (missing_label_empty_line [ghostAnn] exLabels ghostAnn
    (by decide) (by decide)).2.2.2
  exact ⟨h1, h2, h3, h4⟩

end YoloStudio
